import Mathlib

/-!
Shallow embedding of the priority-queue family in `Data_Structures.py`
(classes `PriorityQueue`, `BinomialHeap`, `FibonacciHeap`), together with
theorems settling the specification claims about them.

Modelling conventions:
* Keys are machine integers of the Python programs under test, embedded as
  `Int`; values are the Python values used by the spec's scenarios, embedded
  as `PyVal` (a string or an integer).
* Python `dict`s are embedded as insertion-ordered association lists
  (`dinsert` replaces in place or appends, `ddelete` removes, matching
  CPython's ordered-dict semantics).
* Python exceptions are embedded in the `Except PyErr` monad; the error
  constructor records the Python exception class that is raised.
* Mutable object graphs (binomial-tree nodes, Fibonacci circular rings) are
  embedded as arenas: a list of node records addressed by a stable index,
  one index per allocated Python object, so index equality is Python object
  identity.  Pointer assignments become functional updates of the arena,
  translated statement by statement from the source.
* Unbounded `while` loops over pointer chains are embedded with an explicit
  fuel argument; every call site passes fuel that exceeds the number of
  allocated nodes, which bounds every terminating pointer walk.
-/

deriving instance DecidableEq for Except

/-- Python exception classes that the embedded code can raise. -/
inductive PyErr where
  | typeError
  | valueError
  | indexError
  | keyError
  | attributeError
deriving Repr, DecidableEq

/-- Python values used as heap values: the spec scenarios use strings and
numbers.  Distinct constructors never compare equal, exactly as `str` and
`int` never compare equal in Python. -/
inductive PyVal where
  | str (s : String)
  | int (n : Int)
deriving Repr, DecidableEq

/-- Lookup in an insertion-ordered association list (Python `d[k]` /
`k in d`: first — and only — binding of the key). -/
def dlookup [DecidableEq α] : List (α × β) → α → Option β
  | [], _ => none
  | (k, v) :: rest, key => if k = key then some v else dlookup rest key

/-- Python `d[k] = v`: replace the binding in place if the key is present,
otherwise append it, preserving insertion order. -/
def dinsert [DecidableEq α] : List (α × β) → α → β → List (α × β)
  | [], k, v => [(k, v)]
  | (k', v') :: rest, k, v =>
      if k' = k then (k', v) :: rest else (k', v') :: dinsert rest k v

/-- Python `del d[k]`: remove the binding of the key, if present. -/
def ddelete [DecidableEq α] : List (α × β) → α → List (α × β)
  | [], _ => []
  | (k', v') :: rest, k =>
      if k' = k then rest else (k', v') :: ddelete rest k

/-- Python `a | b` on dicts: keys of `a` in order (with `b`'s value on a
collision), then the keys only in `b`, in order. -/
def dunion [DecidableEq α] (a b : List (α × β)) : List (α × β) :=
  (a.map (fun p => (p.1, (dlookup b p.1).getD p.2)))
    ++ b.filter (fun p => (dlookup a p.1).isNone)

/-- Python `a.keys().isdisjoint(b.keys())`. -/
def ddisjoint [DecidableEq α] (a b : List (α × β)) : Bool :=
  a.all (fun p => (dlookup b p.1).isNone)

/-! ## `PriorityQueue` (binary heap, `Data_Structures.py` lines 182-344) -/

/-- `PriorityQueue.PriorityQueueNode`: a key/value record.  The `id` field
is the Python object identity of the node (nodes are allocated fresh on
every insert and define no `__eq__`/`__hash__`, so dict keying on a node is
keying on its identity). -/
structure PQNode where
  key : Int
  value : PyVal
  id : Nat
deriving Repr, DecidableEq

/-- Default node used to give list indexing a total type; never read by
in-range accesses. -/
def pqDefault : PQNode := ⟨0, PyVal.str "", 0⟩

/-- Keys of the `_value_to_index` dict: the Python code stores both plain
values (`insert`, `_update_value_to_index`) and — in `extract_minimum` —
a `PriorityQueueNode` object itself.  A node object never compares equal to
a plain value, and two node objects compare by identity. -/
inductive DKey where
  | val (v : PyVal)
  | node (id : Nat)
deriving Repr, DecidableEq

/-- State of a `PriorityQueue`: `_container`, `_value_to_index`, and
a fresh-identity counter for node allocation. -/
structure PQ where
  container : List PQNode
  vmap : List (DKey × Nat)
  fresh : Nat
deriving Repr, DecidableEq

def emptyPQ : PQ := ⟨[], [], 0⟩

/-- `PriorityQueue._heapify_up` (lines 316-328), 1-based index.
Recursion runs to the parent `index // 2`; fuel bounds the parent chain
(any fuel at least `index` is sufficient since the index halves). -/
def heapifyUpF : Nat → List PQNode → List (DKey × Nat) → Nat →
    List PQNode × List (DKey × Nat)
  | 0, c, vm, _ => (c, vm)
  | fuel + 1, c, vm, index =>
    if index = 1 then (c, vm)
    else
      let p := index / 2
      let child := c.getD (index - 1) pqDefault
      let parent := c.getD (p - 1) pqDefault
      if child.key < parent.key then
        let c1 := (c.set (index - 1) parent).set (p - 1) child
        -- `_update_value_to_index(index)` then `(parent_index)`, both reading
        -- the container after the swap (lines 326-327, 342-344)
        let vm1 := dinsert vm (DKey.val ((c1.getD (index - 1) pqDefault).value)) index
        let vm2 := dinsert vm1 (DKey.val ((c1.getD (p - 1) pqDefault).value)) p
        heapifyUpF fuel c1 vm2 p
      else (c, vm)

/-- The `smallest` computation of `PriorityQueue._heapify_down`
(lines 297-306): `smallest` starts at `index` and moves to the left child
`2*index` and then the right child `2*index + 1` whenever that child is in
range and has a strictly smaller key. -/
def hdSmallest (c : List PQNode) (index : Nat) : Nat :=
  let len := c.length
  let left := index * 2
  let right := index * 2 + 1
  let s1 :=
    if left ≤ len ∧ (c.getD (index - 1) pqDefault).key > (c.getD (left - 1) pqDefault).key
    then left else index
  if right ≤ len ∧ (c.getD (s1 - 1) pqDefault).key > (c.getD (right - 1) pqDefault).key
  then right else s1

/-- `PriorityQueue._heapify_down` (lines 294-314), 1-based index.
Fuel bounds the descent (any fuel at least `c.length` is sufficient). -/
def heapifyDownF : Nat → List PQNode → List (DKey × Nat) → Nat →
    List PQNode × List (DKey × Nat)
  | 0, c, vm, _ => (c, vm)
  | fuel + 1, c, vm, index =>
    let s2 := hdSmallest c index
    if s2 ≠ index then
      let a := c.getD (index - 1) pqDefault
      let b := c.getD (s2 - 1) pqDefault
      let c1 := (c.set (index - 1) b).set (s2 - 1) a
      let vm1 := dinsert vm (DKey.val ((c1.getD (index - 1) pqDefault).value)) index
      let vm2 := dinsert vm1 (DKey.val ((c1.getD (s2 - 1) pqDefault).value)) s2
      heapifyDownF fuel c1 vm2 s2
    else (c, vm)

/-- `PriorityQueue.insert` (lines 217-236): duplicate-value check against
the dict keys, append, map the value to the new 1-based index, sift up. -/
def pqInsert (s : PQ) (key : Int) (v : PyVal) : Except PyErr PQ :=
  if (dlookup s.vmap (DKey.val v)).isSome then .error PyErr.valueError
  else
    let node : PQNode := ⟨key, v, s.fresh⟩
    let c1 := s.container ++ [node]
    let index := c1.length
    let vm1 := dinsert s.vmap (DKey.val v) index
    let pr := heapifyUpF (index + 1) c1 vm1 index
    .ok { container := pr.1, vmap := pr.2, fresh := s.fresh + 1 }

/-- `PriorityQueue.extract_minimum` (lines 238-257).  Note the two slips the
source contains here: the dict assignment
`self._value_to_index[self._container[0]] = 0` keys on the moved *node
object* (not its value) and stores index `0`, and the extracted value's own
mapping is never deleted. -/
def pqExtractMin (s : PQ) : Except PyErr (PyVal × PQ) :=
  if s.container.length = 0 then .error PyErr.indexError
  else
    let min := s.container.headD pqDefault
    let last := s.container.getLastD pqDefault
    let c1 := s.container.set 0 last
    let vm1 := dinsert s.vmap (DKey.node last.id) 0
    let c2 := c1.dropLast
    let pr := heapifyDownF (c2.length + 1) c2 vm1 1
    .ok (min.value, { container := pr.1, vmap := pr.2, fresh := s.fresh })

/-- `PriorityQueue.minimum` (lines 260-270). -/
def pqMinimum (s : PQ) : Except PyErr PyVal :=
  if s.container.length = 0 then .error PyErr.indexError
  else .ok ((s.container.headD pqDefault).value)

/-- Position read by the Python subscript `self._container[index - 1]`:
for `index >= 1` the read is in range iff `index - 1 < len` and raises
`IndexError` otherwise; for `index = 0` the subscript is `-1`, which
Python resolves to the last element (and raises `IndexError` only on an
empty list).  `none` means the subscript raises `IndexError`. -/
def pyPos (len index : Nat) : Option Nat :=
  if 1 ≤ index then
    if index - 1 < len then some (index - 1) else none
  else
    if 1 ≤ len then some (len - 1) else none

/-- `PriorityQueue.decrease_key` (lines 273-280).  The dict subscript
raises `KeyError` for an unknown value; the list subscript
`self._container[index-1]` raises `IndexError` when the mapped index is
stale and out of range (reachable, since `extract_minimum` never removes
the extracted value's mapping); the guard rejects only a *strictly
larger* new key (`current < new_key`); otherwise the node's key is set
in place and the node sifted up. -/
def pqDecreaseKey (s : PQ) (v : PyVal) (newKey : Int) : Except PyErr PQ :=
  match dlookup s.vmap (DKey.val v) with
  | none => .error PyErr.keyError
  | some index =>
    match pyPos s.container.length index with
    | none => .error PyErr.indexError
    | some pos =>
      let node := s.container.getD pos pqDefault
      if node.key < newKey then .error PyErr.valueError
      else
        let c1 := s.container.set pos { node with key := newKey }
        let pr := heapifyUpF (index + 1) c1 s.vmap index
        .ok { s with container := pr.1, vmap := pr.2 }


/-! ## `BinomialHeap` (`Data_Structures.py` lines 346-624)

Nodes live in an arena: `BinNode` is `BinomialHeap.BinomialTreeNode`
(lines 356-374) and `parent`/`child`/`sibling` are arena indices. -/

/-- `BinomialHeap.BinomialTreeNode` (lines 356-374). -/
structure BinNode where
  key : Int
  value : PyVal
  parent : Option Nat
  degree : Nat
  child : Option Nat
  sibling : Option Nat
deriving Repr, DecidableEq

def binDefault : BinNode := ⟨0, PyVal.str "", none, 0, none, none⟩

def bget (a : List BinNode) (i : Nat) : BinNode := a.getD i binDefault

/-- State of a `BinomialHeap`: arena, `_value_pointer` (value to node),
`_head`, `_len`.  `_len` is a Python `int` (it is decremented by
`2 ** degree` without a lower bound in `extract_min`), hence `Int`. -/
structure BinHeap where
  arena : List BinNode
  vp : List (PyVal × Nat)
  head : Option Nat
  len : Int
deriving Repr, DecidableEq

def emptyBin : BinHeap := ⟨[], [], none, 0⟩

/-- `BinomialHeap.__add__` (lines 587-615).  Its first statement is
`if other is not BinomialHeap:` — an object-*identity* test between the
operand `other` and the class object `BinomialHeap` itself (contrast
`FibonacciHeap.__add__` line 796, which correctly tests
`type(other) is not FibonacciHeap`).  Every actual heap instance is a
different object from the class, so the test is true and the method raises
`TypeError` unconditionally, before the disjointness check or the merge.
The rest of the method is unreachable for heap operands and is therefore
not modelled. -/
def binAdd (_self _other : BinHeap) : Except PyErr BinHeap :=
  .error PyErr.typeError

/-- `BinomialHeap.insert` (lines 418-446).  The key type-check passes for
integer keys.  Note the duplicate guard on line 432 reads
`if key in self._value_pointer:` — it tests the numeric *key* against the
dict's keys, which are the stored *values*.  Then a one-node heap is built
and merged via `self + heap`, i.e. `binAdd`, which always raises
`TypeError`; the three assignments copying the merged heap back into
`self` are never reached, so the original heap is left unchanged when the
exception propagates. -/
def binInsert (h : BinHeap) (key : Int) (value : PyVal) : Except PyErr BinHeap :=
  if (dlookup h.vp (PyVal.int key)).isSome then .error PyErr.valueError
  else
    let nid := h.arena.length
    let a := h.arena ++ [⟨key, value, none, 0, none, none⟩]
    let single : BinHeap := ⟨a, [(value, nid)], some nid, 1⟩
    binAdd { h with arena := a } single

/-- `BinomialHeap.minimum` (lines 393-416).  On an empty heap the code
*constructs* `IndexError("Binomial Heap is empty")` but never raises it
(there is no `raise`), then executes a bare `return`, so the caller gets
`None`.  On a non-empty heap the scan loop starts with `val = None` and
immediately dereferences `val.key`, raising `AttributeError` (and if
`_head` were `None` with `_len != 0`, the loop would be skipped and `val`,
i.e. `None`, returned). -/
def binMinimum (h : BinHeap) : Except PyErr (Option PyVal) :=
  if h.len = 0 then .ok none
  else
    match h.head with
    | none => .ok none
    | some _ => .error PyErr.attributeError

/-- The min-scan loop of `BinomialHeap.extract_min` (lines 463-471): walk
the sibling chain from `x = self._head`, tracking the strictly smallest key
seen (ties keep the earlier root; the initial bound is `float('inf')`,
which every integer key beats).  Returns `minimum_node`. -/
def binScanMin (a : List BinNode) : Nat → Option Nat → Option (Int × Nat) → Option Nat
  | 0, _, best => best.map (fun p => p.2)
  | _ + 1, none, best => best.map (fun p => p.2)
  | fuel + 1, some i, best =>
    let key := (bget a i).key
    let best' :=
      match best with
      | none => some (key, i)
      | some (mk, mi) => if key < mk then some (key, i) else some (mk, mi)
    binScanMin a fuel (bget a i).sibling best'

/-- `BinomialHeap.extract_min` (lines 448-503).  After the guard, the
min-scan leaves `x = None`.  If the minimum root is not the head, the
unlink loop `while x.sibling != minimum_node:` dereferences `x`, i.e.
`None`, and raises `AttributeError`.  Otherwise the head is unlinked and
`_len` decremented by `2 ** degree`; a childless minimum ends in a bare
`return` (the caller gets `None`, never the extracted value, and
`_value_pointer` keeps the extracted value).  If the minimum has children,
their chain is reversed and merged back via `self + new_heap`, which is
`binAdd` and raises `TypeError` (the partially mutated state is discarded
with the exception). -/
def binExtractMin (h : BinHeap) : Except PyErr (Option PyVal × BinHeap) :=
  if h.len = 0 then .error PyErr.indexError
  else
    match h.head with
    | none =>
      -- `minimum_node` stays `None`, `None == self._head` is true, and
      -- `minimum_node.sibling` raises AttributeError
      .error PyErr.attributeError
    | some hd =>
      match binScanMin h.arena (h.arena.length + 1) (some hd) none with
      | none => .error PyErr.attributeError
      | some mn =>
        if mn = hd then
          let h1 := { h with head := (bget h.arena mn).sibling }
          let h2 := { h1 with len := h1.len - 2 ^ (bget h.arena mn).degree }
          match (bget h.arena mn).child with
          | none => .ok (none, h2)
          | some _ => .error PyErr.typeError
        else .error PyErr.attributeError

/-- The sift loop of `BinomialHeap.decrease_key` (lines 531-537): while the
node has a parent and its key is below the `parent` variable's key, swap
the key/value payloads with the parent, repoint `_value_pointer` for both
values, and move up.  Fuel bounds the parent chain. -/
def binBubbleUp : Nat → List BinNode → List (PyVal × Nat) → Nat → Option Nat →
    List BinNode × List (PyVal × Nat)
  | 0, a, vp, _, _ => (a, vp)
  | fuel + 1, a, vp, node, parentVar =>
    match (bget a node).parent, parentVar with
    | some _, some p =>
      if (bget a node).key < (bget a p).key then
        let nk := (bget a node).key
        let nv := (bget a node).value
        let pk := (bget a p).key
        let pv := (bget a p).value
        let a1 := a.set node { bget a node with key := pk, value := pv }
        let a2 := a1.set p { bget a1 p with key := nk, value := nv }
        let vp1 := dinsert vp (bget a2 node).value node
        let vp2 := dinsert vp1 (bget a2 p).value p
        binBubbleUp fuel a2 vp2 p (bget a2 p).parent
      else (a, vp)
    | _, _ => (a, vp)

/-- `BinomialHeap.decrease_key` (lines 505-537): unknown value raises
`ValueError`; `new_key >= current` raises `ValueError`; otherwise set the
key and bubble the payload up. -/
def binDecreaseKey (h : BinHeap) (value : PyVal) (newKey : Int) : Except PyErr BinHeap :=
  match dlookup h.vp value with
  | none => .error PyErr.valueError
  | some nid =>
    if (bget h.arena nid).key ≤ newKey then .error PyErr.valueError
    else
      let parentVar := (bget h.arena nid).parent
      let a := h.arena.set nid { bget h.arena nid with key := newKey }
      let (a1, vp1) := binBubbleUp (a.length + 1) a h.vp nid parentVar
      .ok { h with arena := a1, vp := vp1 }


/-! ## `FibonacciHeap` (`Data_Structures.py` lines 626-815)

Nodes live in an arena; `left`/`right` are the circular doubly linked
sibling ring, translated pointer assignment by pointer assignment. -/

/-- `FibonacciHeap.FibonacciHeapNode` (lines 627-640); a fresh node is its
own singleton ring (`left = right = self`). -/
structure FibNode where
  key : Int
  value : PyVal
  degree : Nat
  mark : Bool
  parent : Option Nat
  left : Nat
  right : Nat
  child : Option Nat
deriving Repr, DecidableEq

def fibDefault : FibNode := ⟨0, PyVal.str "", 0, false, none, 0, 0, none⟩

def fget (a : List FibNode) (i : Nat) : FibNode := a.getD i fibDefault

def fsetLeft (a : List FibNode) (i j : Nat) : List FibNode :=
  a.set i { fget a i with left := j }

def fsetRight (a : List FibNode) (i j : Nat) : List FibNode :=
  a.set i { fget a i with right := j }

def fsetParent (a : List FibNode) (i : Nat) (j : Option Nat) : List FibNode :=
  a.set i { fget a i with parent := j }

def fsetChild (a : List FibNode) (i : Nat) (j : Option Nat) : List FibNode :=
  a.set i { fget a i with child := j }

def fsetDegree (a : List FibNode) (i n : Nat) : List FibNode :=
  a.set i { fget a i with degree := n }

def fsetMark (a : List FibNode) (i : Nat) (m : Bool) : List FibNode :=
  a.set i { fget a i with mark := m }

/-- `FibonacciHeapNode.__add__` (lines 642-656): splice the other ring into
this one (`self.right`/`other.right` are read before any assignment) and
return `self`.  A `None` operand returns `self` unchanged. -/
def nodeAdd (a : List FibNode) (i : Nat) : Option Nat → List FibNode × Nat
  | none => (a, i)
  | some j =>
    let selfNext := (fget a i).right
    let otherNext := (fget a j).right
    let a1 := fsetRight a i j
    let a2 := fsetLeft a1 j i
    let a3 := fsetLeft a2 selfNext otherNext
    let a4 := fsetRight a3 otherNext selfNext
    (a4, i)

/-- `FibonacciHeapNode.remove` (lines 666-671), statement by statement:
`self.left.right = self.right`; `self.right.left = self.left`;
`self.right = self`; `self.left = self`. -/
def nodeRemove (a : List FibNode) (i : Nat) : List FibNode :=
  let a1 := fsetRight a ((fget a i).left) ((fget a i).right)
  let a2 := fsetLeft a1 ((fget a1 i).right) ((fget a1 i).left)
  let a3 := fsetRight a2 i i
  fsetLeft a3 i i

/-- `FibonacciHeapNode.__len__` (lines 658-664): length of the sibling
ring, walking `right` until back at the start.  Fuel (always called with
more than the arena size) bounds the walk. -/
def ringLenAux (a : List FibNode) (start : Nat) : Nat → Nat → Nat → Nat
  | _, 0, count => count
  | ptr, fuel + 1, count =>
    if (fget a ptr).right = start then count
    else ringLenAux a start ((fget a ptr).right) fuel (count + 1)

def ringLen (a : List FibNode) (start : Nat) : Nat :=
  ringLenAux a start start (a.length + 1) 1

/-- `FibonacciHeapNode.link` (lines 673-678): detach `other` from its ring,
splice it into `self`'s child ring (`self.child = other + self.child`,
which returns `other`), set its parent, bump the degree, clear its mark. -/
def nodeLink (a : List FibNode) (i j : Nat) : List FibNode :=
  let a1 := nodeRemove a j
  let (a2, r) := nodeAdd a1 j ((fget a1 i).child)
  let a3 := fsetChild a2 i (some r)
  let a4 := fsetParent a3 j (some i)
  let a5 := fsetDegree a4 i ((fget a4 i).degree + 1)
  fsetMark a5 j false

/-- State of a `FibonacciHeap`: arena, `_min`, `_len`, `_value_pointer`. -/
structure FibHeap where
  arena : List FibNode
  min : Option Nat
  len : Nat
  vp : List (PyVal × Nat)
deriving Repr, DecidableEq

def emptyFib : FibHeap := ⟨[], none, 0, []⟩

/-- `FibonacciHeap.insert` (lines 699-725).  The node construction's key
type-check passes for integer keys (so checking the duplicate guard first
is observationally equivalent); a duplicate value raises `ValueError`
before any field of the heap is touched.  Otherwise the node joins the
root ring next to `_min` and `_min` moves to it if its key is strictly
smaller. -/
def fibInsert (h : FibHeap) (key : Int) (value : PyVal) : Except PyErr FibHeap :=
  if (dlookup h.vp value).isSome then .error PyErr.valueError
  else
    let nid := h.arena.length
    let a0 := h.arena ++ [⟨key, value, 0, false, none, nid, nid, none⟩]
    match h.min with
    | none =>
      .ok ⟨a0, some nid, h.len + 1, dinsert h.vp value nid⟩
    | some m =>
      let (a1, _) := nodeAdd a0 m (some nid)
      let newMin := if key < (fget a1 m).key then nid else m
      .ok ⟨a1, some newMin, h.len + 1, dinsert h.vp value nid⟩

/-- `FibonacciHeap.minimum` (lines 727-738): the body is just
`return self._min.value`, with no emptiness guard, so on an empty heap
`self._min` is `None` and the attribute access raises `AttributeError`
(the docstring's promised `IndexError` is never raised). -/
def fibMinimum (h : FibHeap) : Except PyErr PyVal :=
  match h.min with
  | none => .error PyErr.attributeError
  | some m => .ok (fget h.arena m).value

/-- The inner `while pointer.degree in placeholder` loop of
`FibonacciHeap._consolidate` (lines 778-784): if the occupant of the
pointer's degree slot has a smaller key, swap roles (the slot then holds
the old pointer); link the slot occupant under the pointer; delete the
now-stale slot `pointer.degree - 1` (the degree was just incremented).
Returns the updated arena, table and pointer. -/
def consolidateWhile : Nat → List FibNode → List (Nat × Nat) → Nat →
    List FibNode × List (Nat × Nat) × Nat
  | 0, a, ph, ptr => (a, ph, ptr)
  | fuel + 1, a, ph, ptr =>
    match dlookup ph (fget a ptr).degree with
    | none => (a, ph, ptr)
    | some q =>
      let (ptr1, ph1) :=
        if (fget a ptr).key > (fget a q).key
        then (q, dinsert ph ((fget a q).degree) ptr)
        else (ptr, ph)
      match dlookup ph1 (fget a ptr1).degree with
      | none => (a, ph1, ptr1)
      | some other =>
        let a1 := nodeLink a ptr1 other
        let ph2 := ddelete ph1 ((fget a1 ptr1).degree - 1)
        consolidateWhile fuel a1 ph2 ptr1

/-- The `for i in range(len(self._min))` loop of
`FibonacciHeap._consolidate` (lines 776-786): the iteration count is the
ring length taken once at entry; each step captures `next = pointer.right`
before any link, runs the carry loop, stores the pointer in its degree
slot and moves on. -/
def consolidateFor : Nat → List FibNode → List (Nat × Nat) → Nat →
    List FibNode × List (Nat × Nat)
  | 0, a, ph, _ => (a, ph)
  | n + 1, a, ph, ptr =>
    let nxt := (fget a ptr).right
    let (a1, ph1, ptr1) := consolidateWhile (a.length + 1) a ph ptr
    let ph2 := dinsert ph1 ((fget a1 ptr1).degree) ptr1
    consolidateFor n a1 ph2 nxt

/-- The final min-scan of `FibonacciHeap._consolidate` (lines 788-793):
fold over `placeholder.values()` in insertion order, starting from a
sentinel node with key `float('inf')` — which every integer key beats, so
the fold is a strict-min fold preferring earlier entries on ties. -/
def minScan (a : List FibNode) : List Nat → Option Nat → Option Nat
  | [], best => best
  | i :: rest, best =>
    match best with
    | none => minScan a rest (some i)
    | some m =>
      minScan a rest (if (fget a i).key < (fget a m).key then some i else some m)

/-- `FibonacciHeap._consolidate` (lines 773-793). -/
def fibConsolidate (h : FibHeap) : FibHeap :=
  match h.min with
  | none => h
  | some m =>
    let iters := ringLen h.arena m
    let (a, ph) := consolidateFor iters h.arena [] m
    { h with arena := a, min := minScan a (ph.map (fun p => p.2)) none }

/-- `FibonacciHeap.extract_min` (lines 740-771).  The child-splicing
`while pointer != self._min.child:` loop (lines 757-759) never runs (its
condition is false immediately), so children keep their stale parent
pointers; the child ring is spliced into the root ring, the minimum is
detached, the ring is consolidated, `_len` is decremented and the value's
`_value_pointer` entry deleted. -/
def fibExtractMin (h : FibHeap) : Except PyErr (PyVal × FibHeap) :=
  if h.len = 0 then .error PyErr.indexError
  else
    match h.min with
    | none => .error PyErr.attributeError
    | some m =>
      let value := (fget h.arena m).value
      let a :=
        match (fget h.arena m).child with
        | none => h.arena
        | some c => (nodeAdd h.arena m (some c)).1
      if (fget a m).right = m then
        .ok (value, ⟨a, none, h.len - 1, ddelete h.vp value⟩)
      else
        let tmp := (fget a m).right
        let a2 := nodeRemove a m
        let h2 := fibConsolidate ⟨a2, some tmp, h.len, h.vp⟩
        .ok (value, { h2 with len := h.len - 1, vp := ddelete h2.vp value })

/-- Renumber a node's links by an offset; used to put two heaps' arenas
side by side before `FibonacciHeap.__add__` splices them (in Python both
heaps' nodes already live in one address space, so this renaming is the
identity on the object graph). -/
def fibShift (off : Nat) (n : FibNode) : FibNode :=
  { n with parent := n.parent.map (fun p => p + off),
           left := n.left + off, right := n.right + off,
           child := n.child.map (fun c => c + off) }

/-- `FibonacciHeap.__add__` (lines 795-812): the type guard passes for heap
operands; overlapping value sets raise `ValueError`; an empty operand
returns the other heap; otherwise the root rings are spliced
(`self._min + other._min`), the result heap takes the smaller of the two
minima, the summed length, and the dict union of the value pointers. -/
def fibAdd (h1 h2 : FibHeap) : Except PyErr FibHeap :=
  if ¬ ddisjoint h1.vp h2.vp then .error PyErr.valueError
  else if h1.len = 0 then .ok h2
  else if h2.len = 0 then .ok h1
  else
    match h1.min, h2.min with
    | some m1, some m2 =>
      let off := h1.arena.length
      let a := h1.arena ++ h2.arena.map (fibShift off)
      let m2o := m2 + off
      let (a1, _) := nodeAdd a m1 (some m2o)
      let newMin := if (fget a1 m1).key < (fget a1 m2o).key then m1 else m2o
      .ok ⟨a1, some newMin, h1.len + h2.len,
           dunion h1.vp (h2.vp.map (fun p => (p.1, p.2 + off)))⟩
    | _, _ =>
      -- a non-empty heap with `_min = None` would make `self._min + other._min`
      -- a `None + node` addition, raising `TypeError`; unreachable
      .error PyErr.typeError

/-! ## Operation sequences

A common client program over the three heap classes, used to state the
cross-implementation claims: a straight-line sequence of inserts and
extract-minimums, each run collecting the sequence of extracted values and
propagating the first raised exception. -/

inductive Op where
  | insert (k : Int) (v : PyVal)
  | extractMin
deriving Repr, DecidableEq

def runPQ : List Op → PQ → Except PyErr (List PyVal)
  | [], _ => .ok []
  | .insert k v :: rest, s => do
      let s1 ← pqInsert s k v
      runPQ rest s1
  | .extractMin :: rest, s => do
      let (v, s1) ← pqExtractMin s
      let vs ← runPQ rest s1
      pure (v :: vs)

def runFib : List Op → FibHeap → Except PyErr (List PyVal)
  | [], _ => .ok []
  | .insert k v :: rest, h => do
      let h1 ← fibInsert h k v
      runFib rest h1
  | .extractMin :: rest, h => do
      let (v, h1) ← fibExtractMin h
      let vs ← runFib rest h1
      pure (v :: vs)

/-- `BinomialHeap.extract_min` never returns the extracted value (both of
its exit paths are bare `return`s), so collecting "the extracted value"
for a binomial run records the `None` result as it would reach the
caller.  No run in this file gets that far: the first `insert` already
raises. -/
def runBin : List Op → BinHeap → Except PyErr (List (Option PyVal))
  | [], _ => .ok []
  | .insert k v :: rest, h => do
      let h1 ← binInsert h k v
      runBin rest h1
  | .extractMin :: rest, h => do
      let (v, h1) ← binExtractMin h
      let vs ← runBin rest h1
      pure (v :: vs)

/-- The spec's sorted-extraction scenario: keys `[5,3,8,1,4]` with five
distinct values, then five extract-minimums. -/
def prog54 : List Op :=
  [.insert 5 (.str "a"), .insert 3 (.str "b"), .insert 8 (.str "c"),
   .insert 1 (.str "d"), .insert 4 (.str "e"),
   .extractMin, .extractMin, .extractMin, .extractMin, .extractMin]

/-! ## Helper lemmas for the general theorems -/

theorem dlookup_dinsert_isSome [DecidableEq α] (m : List (α × β)) (k k' : α) (v : β)
    (h : (dlookup m k).isSome = true) :
    (dlookup (dinsert m k' v) k).isSome = true := by
  induction m with
  | nil => simp [dlookup] at h
  | cons p rest ih =>
    obtain ⟨pk, pv⟩ := p
    by_cases hp : pk = k'
    · subst hp
      simp only [dinsert, if_pos rfl]
      by_cases hk : pk = k
      · simp [dlookup, hk]
      · simp only [dlookup, if_neg hk] at h ⊢
        exact h
    · simp only [dinsert, if_neg hp]
      by_cases hk : pk = k
      · simp [dlookup, hk]
      · simp only [dlookup, if_neg hk] at h ⊢
        exact ih h

theorem list_getD_mem {α} (l : List α) (n : Nat) (d : α) (h : n < l.length) :
    l.getD n d ∈ l := by
  induction l generalizing n with
  | nil => simp at h
  | cons a t ih =>
    cases n with
    | zero => simp [List.getD]
    | succ m =>
      have : t.getD m d ∈ t := ih m (by simpa using h)
      simpa [List.getD] using Or.inr (by simpa [List.getD] using this)

theorem set_getD_self {α} (l : List α) (n : Nat) (d : α) (h : n < l.length) :
    l.set n (l.getD n d) = l := by
  induction l generalizing n with
  | nil => rfl
  | cons a t ih =>
    cases n with
    | zero => simp [List.getD]
    | succ m =>
      simp only [List.getD] at *
      simpa [List.set] using ih m (by simpa using h)

/-- The `smallest` index of `_heapify_down` either stays put or names an
in-range child. -/
theorem hdSmallest_cases (c : List PQNode) (i : Nat) :
    hdSmallest c i = i
      ∨ (hdSmallest c i = i * 2 ∧ i * 2 ≤ c.length)
      ∨ (hdSmallest c i = i * 2 + 1 ∧ i * 2 + 1 ≤ c.length) := by
  simp only [hdSmallest]
  by_cases h1 :
      i * 2 ≤ c.length ∧
        (c.getD (i - 1) pqDefault).key > (c.getD (i * 2 - 1) pqDefault).key
  · rw [if_pos h1]
    by_cases h2 :
        i * 2 + 1 ≤ c.length ∧
          (c.getD (i * 2 - 1) pqDefault).key > (c.getD (i * 2 + 1 - 1) pqDefault).key
    · rw [if_pos h2]
      exact Or.inr (Or.inr ⟨rfl, h2.1⟩)
    · rw [if_neg h2]
      exact Or.inr (Or.inl ⟨rfl, h1.1⟩)
  · rw [if_neg h1]
    by_cases h2 :
        i * 2 + 1 ≤ c.length ∧
          (c.getD (i - 1) pqDefault).key > (c.getD (i * 2 + 1 - 1) pqDefault).key
    · rw [if_pos h2]
      exact Or.inr (Or.inr ⟨rfl, h2.1⟩)
    · rw [if_neg h2]
      exact Or.inl rfl

theorem hdSmallest_bounds (c : List PQNode) (i : Nat)
    (h : hdSmallest c i ≠ i) :
    i < hdSmallest c i ∧ hdSmallest c i ≤ c.length := by
  rcases hdSmallest_cases c i with h0 | ⟨h0, hb⟩ | ⟨h0, hb⟩ <;> omega

/-- A dict key present before `_heapify_down` is still present afterwards:
the sift only ever *assigns* mappings, never deletes one. -/
theorem heapifyDownF_vmap_isSome (fuel : Nat) :
    ∀ (c : List PQNode) (vm : List (DKey × Nat)) (i : Nat) (k : DKey),
    (dlookup vm k).isSome = true →
    (dlookup (heapifyDownF fuel c vm i).2 k).isSome = true := by
  induction fuel with
  | zero => intro c vm i k h; simpa [heapifyDownF] using h
  | succ n ih =>
    intro c vm i k h
    rw [heapifyDownF]
    split
    · exact ih _ _ _ _ (dlookup_dinsert_isSome _ _ _ _ (dlookup_dinsert_isSome _ _ _ _ h))
    · simpa using h

/-- Every node in the container after `_heapify_down` was in it before:
the sift only swaps elements in place. -/
theorem mem_of_mem_heapifyDownF (fuel : Nat) :
    ∀ (c : List PQNode) (vm : List (DKey × Nat)) (i : Nat) (x : PQNode),
    x ∈ (heapifyDownF fuel c vm i).1 → x ∈ c := by
  induction fuel with
  | zero => intro c vm i x hx; simpa [heapifyDownF] using hx
  | succ n ih =>
    intro c vm i x hx
    rw [heapifyDownF] at hx
    split at hx
    · rename_i hne
      obtain ⟨hlt, hle⟩ := hdSmallest_bounds c i hne
      have hx1 := ih _ _ _ _ hx
      rcases List.mem_or_eq_of_mem_set hx1 with hx2 | hx2
      · rcases List.mem_or_eq_of_mem_set hx2 with hx3 | hx3
        · exact hx3
        · subst hx3
          exact list_getD_mem _ _ _ (by omega)
      · subst hx2
        exact list_getD_mem _ _ _ (by omega)
    · exact hx

/-- The binary-heap order of the abstraction-function comment
(lines 190-196): with 1-based indexing, every element at an index `i ≥ 2`
has a key no smaller than its parent's at `i / 2`. -/
def heapOrdered (c : List PQNode) : Prop :=
  ∀ i, 2 ≤ i → i ≤ c.length →
    (c.getD (i / 2 - 1) pqDefault).key ≤ (c.getD (i - 1) pqDefault).key

/-- On a heap-ordered container, `_heapify_up` swaps nothing and leaves
both the container and the map untouched. -/
theorem heapifyUpF_noop (fuel : Nat) (c : List PQNode) (vm : List (DKey × Nat))
    (index : Nat) (hord : heapOrdered c) (h1 : 1 ≤ index) (h2 : index ≤ c.length) :
    heapifyUpF (fuel + 1) c vm index = (c, vm) := by
  simp only [heapifyUpF]
  by_cases hi : index = 1
  · rw [if_pos hi]
  · rw [if_neg hi]
    have hkey := hord index (by omega) h2
    rw [if_neg (not_lt.mpr hkey)]

/-! ## Claims -/

/-- C1: the claim says `BinomialHeap.insert(key, value)` completes without
error for any fresh value and only a duplicate value makes it fail.  The
code refutes this: the merge `self + heap` inside `insert` begins with
`if other is not BinomialHeap:`, an identity comparison of the operand
with the class object, which is true for every heap instance, so every
insert — here the very first insert into a fresh heap — raises
`TypeError`. -/
theorem c1_binomial_insert_always_raises :
    binInsert emptyBin 1 (PyVal.str "a") = .error PyErr.typeError := by decide

/-- C2: the claim says a fixed sequence of operations extracts identical
value sequences from all three heap classes.  On the two-operation program
`insert(1, "a"); extract_minimum()` the binary heap and the Fibonacci heap
both extract `"a"`, while the binomial heap raises `TypeError` at the
insert, so the three runs do not agree. -/
theorem c2_cross_impl_divergence :
    runPQ [.insert 1 (.str "a"), .extractMin] emptyPQ = .ok [PyVal.str "a"]
      ∧ runFib [.insert 1 (.str "a"), .extractMin] emptyFib = .ok [PyVal.str "a"]
      ∧ runBin [.insert 1 (.str "a"), .extractMin] emptyBin
          = .error PyErr.typeError := by decide

/-- C3: loading keys `[5,3,8,1,4]` and extracting five times yields the
values in ascending key order (1,3,4,5,8 — values "d","b","e","a","c")
on the binary heap and on the Fibonacci heap, but the binomial heap
raises `TypeError` on its very first insert. -/
theorem c3_sorted_extraction :
    runPQ prog54 emptyPQ
        = .ok [PyVal.str "d", PyVal.str "b", PyVal.str "e", PyVal.str "a", PyVal.str "c"]
      ∧ runFib prog54 emptyFib
        = .ok [PyVal.str "d", PyVal.str "b", PyVal.str "e", PyVal.str "a", PyVal.str "c"]
      ∧ runBin prog54 emptyBin = .error PyErr.typeError := by decide

/-- C5: the claim says `minimum`/`extract_minimum` on a fresh heap always
raise an explicit empty-structure error and never return a sentinel.  The
code refutes the `minimum` half twice: `BinomialHeap.minimum` builds an
`IndexError` without raising it and returns `None` (a sentinel), and
`FibonacciHeap.minimum` dereferences `self._min`, i.e. `None`, raising
`AttributeError` instead of an explicit empty-structure error.  The
remaining four operations do raise `IndexError` as claimed. -/
theorem c5_empty_heap_behaviour :
    binMinimum emptyBin = .ok none
      ∧ fibMinimum emptyFib = .error PyErr.attributeError
      ∧ pqMinimum emptyPQ = .error PyErr.indexError
      ∧ pqExtractMin emptyPQ = .error PyErr.indexError
      ∧ binExtractMin emptyBin = .error PyErr.indexError
      ∧ fibExtractMin emptyFib = .error PyErr.indexError := by decide

/-- C7: the claim says duplicate inserts fail leaving the heap unchanged
on all three classes.  The binary heap and the Fibonacci heap behave as
claimed (checked here on a concrete heap: the duplicate raises
`ValueError` before any state is touched), but the binomial heap cannot
even accept a first insert — it raises `TypeError` — so no value can ever
be in it to duplicate (and its duplicate guard tests the numeric *key*
against the stored values, `if key in self._value_pointer:`). -/
theorem c7_duplicate_rejection :
    (do
        let s1 ← pqInsert emptyPQ 1 (.str "a")
        pqInsert s1 5 (.str "a")) = .error PyErr.valueError
      ∧ (do
          let h1 ← fibInsert emptyFib 1 (.str "a")
          fibInsert h1 5 (.str "a")) = .error PyErr.valueError
      ∧ binInsert emptyBin 2 (.str "b") = .error PyErr.typeError := by decide

/-- C8: the claim says `_value_to_index` always holds exactly the live
values, each at its current 1-based index, with `extract_minimum` moving
the relocated entry's mapping and deleting the extracted one.  Evaluating
the failing input `insert(1,"a"); insert(2,"b"); extract_minimum()` shows
the map afterwards still holds the extracted `"a" -> 1` and the stale
`"b" -> 2`, plus a mapping of the moved *node object* to `0`, while the
container holds only the `"b"` entry. -/
theorem c8_extract_corrupts_value_map :
    (do
        let s1 ← pqInsert emptyPQ 1 (.str "a")
        let s2 ← pqInsert s1 2 (.str "b")
        pqExtractMin s2)
      = .ok (PyVal.str "a",
          { container := [⟨2, PyVal.str "b", 1⟩],
            vmap := [(DKey.val (PyVal.str "a"), 1), (DKey.val (PyVal.str "b"), 2),
                     (DKey.node 1, 0)],
            fresh := 2 }) := by decide

/-- C9: the claim says merging overlapping heaps fails with a
duplicate-value error and merging disjoint heaps of sizes p and q gives
size p + q with the smaller minimum, for both mergeable classes.  The
Fibonacci heap behaves as claimed (checked on heaps of sizes 2 and 1),
but `BinomialHeap.__add__` raises `TypeError` for *any* operand — even
two empty heaps — before its disjointness check can run. -/
theorem c9_merge_behaviour :
    binAdd emptyBin emptyBin = .error PyErr.typeError
      ∧ (do
          let h1 ← fibInsert emptyFib 1 (.str "x")
          let h2 ← fibInsert h1 5 (.str "y")
          let g1 ← fibInsert emptyFib 3 (.str "z")
          let m ← fibAdd h2 g1
          let mv ← fibMinimum m
          pure (m.len, mv)) = .ok (3, PyVal.str "x")
      ∧ (do
          let h1 ← fibInsert emptyFib 1 (.str "x")
          let g1 ← fibInsert emptyFib 2 (.str "x")
          fibAdd h1 g1) = .error PyErr.valueError := by decide

/-- Helper for the equal-key case of `decrease_key`: writing back the
element's own key is the identity on the container. -/
theorem set_getD_key_self (l : List PQNode) (n : Nat) (h : n < l.length) :
    l.set n { l.getD n pqDefault with key := (l.getD n pqDefault).key } = l := by
  have heta : { l.getD n pqDefault with key := (l.getD n pqDefault).key }
      = l.getD n pqDefault := rfl
  rw [heta]
  exact set_getD_self l n pqDefault h

/-- A one-element priority queue holding `"a"` with key 1, as produced by
`insert(1, "a")` on a fresh queue. -/
def c6s : PQ := ⟨[⟨1, PyVal.str "a", 0⟩], [(DKey.val (PyVal.str "a"), 1)], 1⟩

/-- A one-node binomial heap holding `"a"` with key 5 (such a state cannot
be produced through the broken public constructors, but the claim
quantifies over heaps that do hold a value). -/
def c6bh : BinHeap :=
  ⟨[⟨5, PyVal.str "a", none, 0, none, none⟩], [(PyVal.str "a", 0)], some 0, 1⟩

/-- The queue left behind by `insert(7, "w"); extract_minimum()`: the
container is empty but the map still holds `"w" -> 1` (and the moved node
object at `0`), so the `"w"` index is stale and out of range. -/
def c6post : PQ := ⟨[], [(DKey.val (PyVal.str "w"), 1), (DKey.node 0, 0)], 1⟩

theorem pyPos_in_range (len index : Nat) (h1 : 1 ≤ index) (h2 : index ≤ len) :
    pyPos len index = some (index - 1) := by
  unfold pyPos
  rw [if_pos h1, if_pos (by omega)]

theorem pyPos_out_of_range (len index : Nat) (h1 : 1 ≤ index) (h2 : len < index) :
    pyPos len index = none := by
  unfold pyPos
  rw [if_pos h1, if_neg (by omega)]

/-- C6 counterexample: the claim says `decrease_key` with `new_key` equal
to the current key raises the invalid-key-increase error.  On the binary
heap it does not: the guard on line 276 is `current < new_key`, so the
equal-key call succeeds — and returns the queue unchanged. -/
theorem c6_counterexample_equal_key_accepted :
    pqDecreaseKey c6s (PyVal.str "a") 1 = .ok c6s := by decide

/-- C6 (amended): for a value whose map entry points at an in-range
container position, `PriorityQueue.decrease_key` fails exactly when
`new_key` is strictly *greater* than the current key; a `new_key` equal
to the current key is accepted and (on a heap-ordered queue) leaves the
queue unchanged.  When the mapped index is stale and out of range —
reachable, since `extract_minimum` leaves the extracted value's mapping
behind — the list subscript raises `IndexError` before the key guard is
ever reached.  `BinomialHeap.decrease_key` does fail whenever `new_key`
is not strictly smaller than the current key. -/
theorem c6_decrease_key_policy :
    (∀ (s : PQ) (v : PyVal) (k : Int) (idx : Nat),
        dlookup s.vmap (DKey.val v) = some idx →
        1 ≤ idx → idx ≤ s.container.length →
        (s.container.getD (idx - 1) pqDefault).key < k →
        pqDecreaseKey s v k = .error PyErr.valueError)
      ∧ (∀ (s : PQ) (v : PyVal) (idx : Nat),
          dlookup s.vmap (DKey.val v) = some idx →
          1 ≤ idx → idx ≤ s.container.length →
          heapOrdered s.container →
          pqDecreaseKey s v ((s.container.getD (idx - 1) pqDefault).key) = .ok s)
      ∧ (∀ (s : PQ) (v : PyVal) (k : Int) (idx : Nat),
          dlookup s.vmap (DKey.val v) = some idx →
          1 ≤ idx → s.container.length < idx →
          pqDecreaseKey s v k = .error PyErr.indexError)
      ∧ (∀ (h : BinHeap) (v : PyVal) (k : Int) (nid : Nat),
          dlookup h.vp v = some nid →
          (bget h.arena nid).key ≤ k →
          binDecreaseKey h v k = .error PyErr.valueError) := by
  refine ⟨?_, ?_, ?_, ?_⟩
  · intro s v k idx hl h1 h2 hk
    simp only [pqDecreaseKey, hl, pyPos_in_range s.container.length idx h1 h2]
    rw [if_pos hk]
  · intro s v idx hl h1 h2 hord
    simp only [pqDecreaseKey, hl, pyPos_in_range s.container.length idx h1 h2]
    rw [if_neg (lt_irrefl _)]
    rw [set_getD_key_self s.container (idx - 1) (by omega)]
    rw [heapifyUpF_noop idx s.container s.vmap idx hord h1 h2]
  · intro s v k idx hl h1 h2
    simp only [pqDecreaseKey, hl, pyPos_out_of_range s.container.length idx h1 h2]
  · intro h v k nid hl hk
    simp only [binDecreaseKey, hl]
    rw [if_pos hk]

/-- C6 witness: the four conjuncts of the amended claim instantiated on
the concrete heaps above — `new_key = 2 > 1` is rejected, `new_key = 1`
(equal) is accepted leaving the queue intact, the stale post-extract
mapping of `"w"` makes `decrease_key("w", 5)` raise `IndexError`, and
the binomial guard rejects `new_key = 5 >= 5`. -/
theorem c6_witness :
    pqDecreaseKey c6s (PyVal.str "a") 2 = .error PyErr.valueError
      ∧ pqDecreaseKey c6s (PyVal.str "a") 1 = .ok c6s
      ∧ pqDecreaseKey c6post (PyVal.str "w") 5 = .error PyErr.indexError
      ∧ binDecreaseKey c6bh (PyVal.str "a") 5 = .error PyErr.valueError := by
  refine ⟨?_, ?_, ?_, ?_⟩
  · exact c6_decrease_key_policy.1 c6s (PyVal.str "a") 2 1 (by decide) (by decide)
      (by decide) (by decide)
  · exact c6_decrease_key_policy.2.1 c6s (PyVal.str "a") 1 (by decide) (by decide)
      (by decide) (by intro i h2i hle; simp [c6s] at hle; omega)
  · exact c6_decrease_key_policy.2.2.1 c6post (PyVal.str "w") 5 1 (by decide)
      (by decide) (by decide)
  · exact c6_decrease_key_policy.2.2.2 c6bh (PyVal.str "a") 5 0 (by decide) (by decide)

/-- The last element of a non-empty list with a default is a member. -/
theorem getLastD_cons_mem {α} (a : α) (l : List α) (d : α) :
    (a :: l).getLastD d ∈ a :: l := by
  induction l generalizing a with
  | nil => simp [List.getLastD]
  | cons b t ih =>
    rw [List.getLastD_cons]
    exact List.mem_cons_of_mem a (ih b)

/-- C10: after `extract_minimum` removes the root value from the
container, the value's `_value_to_index` entry survives (the method adds
and reassigns mappings but never deletes one), so any later `insert` of
that same value — with any key — hits the duplicate guard and raises
`ValueError`, even though the value is no longer stored. -/
theorem c10_stale_map_blocks_reinsert
    (s : PQ) (n : PQNode) (rest : List PQNode)
    (hc : s.container = n :: rest)
    (hv : (dlookup s.vmap (DKey.val n.value)).isSome = true)
    (hrest : ∀ m ∈ rest, m.value ≠ n.value) :
    ∃ s2, pqExtractMin s = .ok (n.value, s2)
      ∧ (∀ m ∈ s2.container, m.value ≠ n.value)
      ∧ (dlookup s2.vmap (DKey.val n.value)).isSome = true
      ∧ ∀ k, pqInsert s2 k n.value = .error PyErr.valueError := by
  obtain ⟨cont, vm, fr⟩ := s
  simp only at hc hv
  subst hc
  have hlen : ¬ (n :: rest).length = 0 := by simp
  have hmap : (dlookup
      (heapifyDownF ((((n :: rest).set 0 ((n :: rest).getLastD pqDefault)).dropLast).length + 1)
        (((n :: rest).set 0 ((n :: rest).getLastD pqDefault)).dropLast)
        (dinsert vm (DKey.node ((n :: rest).getLastD pqDefault).id) 0) 1).2
      (DKey.val n.value)).isSome = true :=
    heapifyDownF_vmap_isSome _ _ _ _ _ (dlookup_dinsert_isSome _ _ _ _ hv)
  refine ⟨⟨(heapifyDownF ((((n :: rest).set 0 ((n :: rest).getLastD pqDefault)).dropLast).length + 1)
        (((n :: rest).set 0 ((n :: rest).getLastD pqDefault)).dropLast)
        (dinsert vm (DKey.node ((n :: rest).getLastD pqDefault).id) 0) 1).1,
      (heapifyDownF ((((n :: rest).set 0 ((n :: rest).getLastD pqDefault)).dropLast).length + 1)
        (((n :: rest).set 0 ((n :: rest).getLastD pqDefault)).dropLast)
        (dinsert vm (DKey.node ((n :: rest).getLastD pqDefault).id) 0) 1).2, fr⟩,
    ?_, ?_, ?_, ?_⟩
  · simp only [pqExtractMin]
    rw [if_neg hlen]
    rfl
  · intro m hm
    have hm2 := mem_of_mem_heapifyDownF _ _ _ _ _ hm
    rw [List.set_cons_zero] at hm2
    cases rest with
    | nil =>
      simp [List.dropLast] at hm2
    | cons r rs =>
      rw [List.dropLast_cons₂] at hm2
      rcases List.mem_cons.mp hm2 with hm3 | hm3
      · subst hm3
        refine hrest _ ?_
        rw [List.getLastD_cons]
        exact getLastD_cons_mem r rs n
      · exact hrest _ (List.dropLast_sublist (r :: rs) |>.subset hm3)
  · exact hmap
  · intro k
    simp only [pqInsert]
    rw [if_pos hmap]

/-- A one-element priority queue holding `"w"` with key 7, as produced by
`insert(7, "w")` on a fresh queue. -/
def c10s : PQ := ⟨[⟨7, PyVal.str "w", 0⟩], [(DKey.val (PyVal.str "w"), 1)], 1⟩

/-- C10 witness: extracting the only element of a one-element queue
succeeds, the container no longer holds `"w"`, yet `"w"` is still mapped,
and re-inserting `"w"` with any key raises `ValueError`. -/
theorem c10_witness :
    ∃ s2, pqExtractMin c10s = .ok (PyVal.str "w", s2)
      ∧ (∀ m ∈ s2.container, m.value ≠ PyVal.str "w")
      ∧ (dlookup s2.vmap (DKey.val (PyVal.str "w"))).isSome = true
      ∧ ∀ k, pqInsert s2 k (PyVal.str "w") = .error PyErr.valueError :=
  c10_stale_map_blocks_reinsert c10s ⟨7, PyVal.str "w", 0⟩ [] rfl (by decide)
    (by intro m hm; simp at hm)
